import Mathlib

/-!
Verification of the SelfDB-mini admin frontend against its specification.

The definitions below are a shallow embedding of the table/column/row
management code in `src/frontend/src/pages/Tables.tsx`,
`src/frontend/src/pages/TableDetail.tsx`, `src/frontend/src/pages/Users.tsx`
and the generic `DataTable` component. Pure computations (name cleaning,
request-body construction, pagination arithmetic) become Lean functions;
the search/sort/page React state becomes an explicit state type with a step
function over UI events.
-/

namespace SelfDB

/-- Page size used by the list views (`PAGE_SIZE = 50` in `Tables.tsx` and
`Users.tsx`, `pageSize = 50` in `TableDetail.tsx` and `DataTable`). -/
def PAGE_SIZE : Nat := 50

/-- Characters kept by the name-input change handlers: the character class
`[a-z0-9_]` of the regex `/[^a-z0-9_]/g` used in `TableDetail.tsx` (add/edit
column name inputs) and `Tables.tsx` (edit table name input). -/
def isIdentChar (c : Char) : Bool :=
  (('a' ≤ c) && (c ≤ 'z')) || (('0' ≤ c) && (c ≤ '9')) || (c == '_')

/-- The controlled-input normalizer attached to the add-column, edit-column
and edit-table name inputs:
`e.target.value.toLowerCase().replace(/[^a-z0-9_]/g, '')`
(ASCII model of `toLowerCase`). Because the handler is character-wise and
idempotent and the input is controlled, the field state at submit time is
this function applied to the text the user entered. -/
def normalizeNameInput (s : String) : String :=
  String.mk ((s.data.map Char.toLower).filter isIdentChar)

/-- Drop whitespace from both ends of a character list. -/
def trimChars (l : List Char) : List Char :=
  ((l.dropWhile Char.isWhitespace).reverse.dropWhile Char.isWhitespace).reverse

/-- Modelled from the spec: the helper `stripName` lives in the frontend
`lib/utils` module, which is absent from `src/`. Of the validator steps in
the spec (lower-cases, trims, rejects empty or whitespace-only input, strips
characters outside `[a-z0-9_]`) it performs the trimming step, with the
emptiness rejection done by each caller; every call site in `src/` describes
it as trimming (comments such as `Validate and trim table name`,
`Validate and trim email`, `trim keys`) and applies it to emails and free-text
descriptions, so it cannot lower-case or strip characters. -/
def stripName (s : String) : String :=
  String.mk (trimChars s.data)

/-- A JavaScript object with string keys, as an ordered association list.
Assignment `obj[k] = v` updates the value in place when `k` is already a key
(keeping its position) and appends otherwise. -/
def jsObjInsert {α : Type} (obj : List (String × α)) (k : String) (v : α) :
    List (String × α) :=
  if obj.any (fun p => p.1 == k) then
    obj.map (fun p => if p.1 == k then (k, v) else p)
  else
    obj ++ [(k, v)]

/-- The keys of a JavaScript object, in insertion order. -/
def objKeys {α : Type} (obj : List (String × α)) : List String :=
  obj.map Prod.fst

/-- A JavaScript value as it can appear in the row forms: a string from a
text input, `null`, `undefined`, a boolean or a number. -/
inductive JsValue where
  | str (s : String)
  | nul
  | undef
  | bool (b : Bool)
  | num (n : Int)
deriving DecidableEq, Repr

/-- The filter in `handleAddRow` (`TableDetail.tsx`):
`value !== '' && value !== null && value !== undefined`. -/
def keepRowValue (v : JsValue) : Bool :=
  v != JsValue.str "" && v != JsValue.nul && v != JsValue.undef

/-- Request-body construction in `handleAddRow` (`TableDetail.tsx`):
keep an entry when its value passes `keepRowValue` and its trimmed key is
truthy (non-empty), writing it under the trimmed key. -/
def handleAddRowClean (entries : List (String × JsValue)) :
    List (String × JsValue) :=
  entries.foldl
    (fun acc kv =>
      if keepRowValue kv.2 && stripName kv.1 != "" then
        jsObjInsert acc (stripName kv.1) kv.2
      else acc)
    []

/-- Modelled from the spec: `stripObjectKeys` also lives in the missing
frontend `lib/utils` module; the call site comment in `handleUpdateRow`
(`Remove id from the update data and trim keys`) documents it as trimming
every key of the object. -/
def stripObjectKeys (entries : List (String × JsValue)) :
    List (String × JsValue) :=
  entries.foldl (fun acc kv => jsObjInsert acc (stripName kv.1) kv.2) []

/-- Request-body construction in `handleUpdateRow` (`TableDetail.tsx`):
`const \x7b id, ...rawUpdateData \x7d = editRowData.data` removes exactly the
key `id`, then `stripObjectKeys` trims the remaining keys. -/
def handleUpdateRowBody (data : List (String × JsValue)) :
    List (String × JsValue) :=
  stripObjectKeys (data.filter (fun p => p.1 != "id"))

/-- One column as displayed in `TableDetail.tsx` (derived from the fetched
table schema). -/
structure ColumnInfo where
  name : String
  type : String
  nullable : Bool
deriving DecidableEq, Repr

/-- Whether `pat` occurs as a contiguous substring of `s`
(model of JavaScript `String.includes`). -/
def strContains (s pat : String) : Bool :=
  (List.range (s.length + 1)).any (fun i => pat.data.isPrefixOf (s.data.drop i))

/-- ASCII model of JavaScript `String.toLowerCase`, character-wise. -/
def jsToLower (s : String) : String :=
  String.mk (s.data.map Char.toLower)

/-- Initial form data built by `openAddRowModal` (`TableDetail.tsx`): every
column gets an empty-string field, except a column named `id` whose type
contains `uuid`, which is skipped. -/
def openAddRowModalInit (columns : List ColumnInfo) :
    List (String × JsValue) :=
  columns.foldl
    (fun acc col =>
      if jsToLower col.name == "id" && strContains (jsToLower col.type) "uuid" then
        acc
      else jsObjInsert acc col.name (JsValue.str ""))
    []

/-- Request-body construction in `handleAddRow` of `Tables.tsx` (quick-view
modal): every key of the table schema is written, trimmed, with an
empty-string value; there is no filtering and no `id` exclusion. -/
def tablesQuickAddRowBody (schemaKeys : List String) :
    List (String × JsValue) :=
  schemaKeys.foldl (fun acc k => jsObjInsert acc (stripName k) (JsValue.str "")) []

/-- One row of the column list in the create-table form (`Tables.tsx`). -/
structure ColumnForm where
  name : String
  type : String
  nullable : Bool
deriving DecidableEq, Repr

/-- The create-table form state (`createForm` in `Tables.tsx`). The name
input of this modal stores the raw text (its change handler does not
normalize). -/
structure CreateTableForm where
  name : String
  description : String
  public : Bool
  columns : List ColumnForm
deriving DecidableEq, Repr

/-- The per-column payload written into the schema object by
`handleCreateTable`. -/
structure ColumnSchemaDef where
  type : String
  nullable : Bool
deriving DecidableEq, Repr

/-- The body of the create-table request (`createTableTablesPost`). -/
structure CreateTableRequest where
  name : String
  description : Option String
  public : Bool
  schema : List (String × ColumnSchemaDef)
deriving DecidableEq, Repr

/-- The schema-building loop of `handleCreateTable` (`Tables.tsx`), as
structural recursion over the remaining columns with the schema object
accumulated so far: trim each name in order, abort when a trimmed name is
empty, and otherwise assign `schema[colName] = ...` on a JavaScript object
(so a repeated name overwrites the earlier definition instead of being
checked). -/
def buildCreateSchemaAux :
    List ColumnForm → List (String × ColumnSchemaDef) →
      Option (List (String × ColumnSchemaDef))
  | [], schema => some schema
  | col :: rest, schema =>
    if stripName col.name == "" then none
    else
      buildCreateSchemaAux rest
        (jsObjInsert schema (stripName col.name) ⟨col.type, col.nullable⟩)

/-- The schema object built by `handleCreateTable`, starting from the empty
object. -/
def buildCreateSchema (cols : List ColumnForm) :
    Option (List (String × ColumnSchemaDef)) :=
  buildCreateSchemaAux cols []

/-- `handleCreateTable` (`Tables.tsx`) as the list of create calls it issues:
trim the table name and reject when empty, build the schema object (rejecting
when a column name trims to empty), then call `createTableTablesPost` once
with the whole schema. The description is trimmed with empty mapped to
null. -/
def handleCreateTableRequests (form : CreateTableForm) :
    List CreateTableRequest :=
  let tableName := stripName form.name
  if tableName == "" then []
  else
    match buildCreateSchema form.columns with
    | none => []
    | some schema =>
      [{ name := tableName
         description :=
           if stripName form.description == "" then none
           else some (stripName form.description)
         public := form.public
         schema := schema }]

/-- Name submission in `handleAddColumn` (`TableDetail.tsx`): the field state
is trimmed; an empty result aborts with no request, otherwise the trimmed
name is sent. -/
def addColumnSubmittedName (fieldState : String) : Option String :=
  let columnName := stripName fieldState
  if columnName == "" then none else some columnName

/-- The add-column flow from raw typed text: the controlled input keeps the
field state equal to `normalizeNameInput` of the entered text, and submit
applies `addColumnSubmittedName`. -/
def addColumnSubmitFromInput (raw : String) : Option String :=
  addColumnSubmittedName (normalizeNameInput raw)

/-- Name submission in `handleEditTable` (`Tables.tsx`): the edit-table name
input normalizes on change and submit trims, rejecting the empty result. -/
def editTableSubmitFromInput (raw : String) : Option String :=
  let tableName := stripName (normalizeNameInput raw)
  if tableName == "" then none else some tableName

/-- The body of `updateColumnTablesTableIdColumnsColumnNamePatch`
(`handleUpdateColumn` in `TableDetail.tsx`). -/
structure UpdateColumnBody where
  new_name : Option String
  type : String
  nullable : Bool
deriving DecidableEq, Repr

/-- `handleUpdateColumn` (`TableDetail.tsx`): the edit-column name input
normalizes on change; submit trims the field state, aborts when empty, and
sends `new_name` only when it differs from the original name. -/
def handleUpdateColumnRequest (originalName rawNewName ctype : String)
    (nullable : Bool) : Option UpdateColumnBody :=
  let newColumnName := stripName (normalizeNameInput rawNewName)
  if newColumnName == "" then none
  else
    some { new_name := if newColumnName != originalName then some newColumnName else none
           type := ctype
           nullable := nullable }

/-- The identifier pattern stated by the spec for table and column names,
written from the words of the spec for comparison with the code:
a lowercase letter followed by characters of `[a-z0-9_]`. -/
def matchesSpecNamePattern (s : String) : Bool :=
  match s.data with
  | [] => false
  | c :: cs => (('a' ≤ c) && (c ≤ 'z')) && cs.all isIdentChar

/-- Modelled from the spec: the backend Identifier Validator is engine code
that is absent from `src/` (only its frontend callers are present). Per the
spec it lower-cases, trims, strips characters outside `[a-z0-9_]`, rejects
input that is or becomes empty, enforces a maximum length (left as a
parameter, since the spec only says the length is bounded) and rejects the
reserved implicit identity column name `id`. -/
def specNormalizeName (maxLen : Nat) (raw : String) : Option String :=
  let cleaned := normalizeNameInput (stripName raw)
  if cleaned == "" then none
  else if maxLen < cleaned.length then none
  else if cleaned == "id" then none
  else some cleaned

/-- Modelled from the spec: the backend add-column operation validates the
submitted name with the Identifier Validator and rejects a duplicate of an
existing column before extending the schema. -/
def specAddColumn (maxLen : Nat) (schema : List (String × ColumnSchemaDef))
    (name : String) (cdef : ColumnSchemaDef) :
    Option (List (String × ColumnSchemaDef)) :=
  match specNormalizeName maxLen name with
  | none => none
  | some n =>
    if schema.any (fun p => p.1 == n) then none
    else some (jsObjInsert schema n cdef)

/-- Modelled from the spec: the backend rename-column operation validates the
rename target with the Identifier Validator and rejects a duplicate before
rewriting the key. -/
def specRenameColumn (maxLen : Nat) (schema : List (String × ColumnSchemaDef))
    (oldName rawNewName : String) : Option (List (String × ColumnSchemaDef)) :=
  match specNormalizeName maxLen rawNewName with
  | none => none
  | some n =>
    if schema.any (fun p => p.1 == n) then none
    else some (schema.map (fun p => if p.1 == oldName then (n, p.2) else p))

/-- The end-to-end add-column flow: the frontend submit of
`handleAddColumn` followed by the spec-modelled backend validation; a
rejection at either stage leaves the schema unchanged. -/
def addColumnFlow (maxLen : Nat) (schema : List (String × ColumnSchemaDef))
    (raw : String) (cdef : ColumnSchemaDef) : List (String × ColumnSchemaDef) :=
  match addColumnSubmitFromInput raw with
  | none => schema
  | some n =>
    match specAddColumn maxLen schema n cdef with
    | none => schema
    | some schema2 => schema2

/-- The end-to-end edit-column flow: the frontend submit of
`handleUpdateColumn` followed by the spec-modelled backend rename when a
`new_name` is present; a rejection at either stage, or a body without
`new_name`, leaves the column keys unchanged. -/
def renameColumnFlow (maxLen : Nat) (schema : List (String × ColumnSchemaDef))
    (originalName rawNewName ctype : String) (nullable : Bool) :
    List (String × ColumnSchemaDef) :=
  match handleUpdateColumnRequest originalName rawNewName ctype nullable with
  | none => schema
  | some body =>
    match body.new_name with
    | none => schema
    | some n =>
      match specRenameColumn maxLen schema originalName n with
      | none => schema
      | some schema2 => schema2

/-- The search/sort/page React state shared by the `Tables.tsx` and
`Users.tsx` list views. The sort field and order are strings, as delivered
by the DOM select elements. -/
structure ListViewState where
  page : Nat
  searchQuery : String
  sortBy : String
  sortOrder : String
deriving DecidableEq, Repr

/-- The search/sort/page React state of `TableDetail.tsx`, whose sort field
is nullable (`None` option in the select). -/
structure DetailViewState where
  page : Nat
  searchQuery : String
  sortBy : Option String
  sortOrder : String
deriving DecidableEq, Repr

/-- UI events that drive the search/sort/page state: the debounced search
commit, the clear-search button, the sort-field select, the sort-order
toggle, and the infinite-scroll page increment. -/
inductive ListViewEvent where
  | commitSearch (v : String)
  | clearSearch
  | setSortBy (v : String)
  | toggleOrder
  | scrollNextPage
deriving DecidableEq, Repr

/-- Initial state of `Tables.tsx`: page 1, empty search, sort by
`created_at` descending. -/
def tablesInit : ListViewState :=
  { page := 1, searchQuery := "", sortBy := "created_at", sortOrder := "desc" }

/-- Initial state of `Users.tsx`: page 1, empty search, sort by
`created_at` descending. -/
def usersInit : ListViewState :=
  { page := 1, searchQuery := "", sortBy := "created_at", sortOrder := "desc" }

/-- State transitions of `Tables.tsx`: the debounce callback and
`clearSearch` set the query and reset the page, the sort select stores its
value and resets the page, `toggleSortOrder` flips `desc`/`asc` and resets
the page, and the infinite-scroll handler increments the page. -/
def tablesStep (s : ListViewState) (e : ListViewEvent) : ListViewState :=
  match e with
  | .commitSearch v => { s with searchQuery := v, page := 1 }
  | .clearSearch => { s with searchQuery := "", page := 1 }
  | .setSortBy v => { s with sortBy := v, page := 1 }
  | .toggleOrder =>
    { s with sortOrder := if s.sortOrder == "desc" then "asc" else "desc"
             page := 1 }
  | .scrollNextPage => { s with page := s.page + 1 }

/-- State transitions of `Users.tsx`; the handlers are the same as in
`Tables.tsx`. -/
def usersStep (s : ListViewState) (e : ListViewEvent) : ListViewState :=
  match e with
  | .commitSearch v => { s with searchQuery := v, page := 1 }
  | .clearSearch => { s with searchQuery := "", page := 1 }
  | .setSortBy v => { s with sortBy := v, page := 1 }
  | .toggleOrder =>
    { s with sortOrder := if s.sortOrder == "desc" then "asc" else "desc"
             page := 1 }
  | .scrollNextPage => { s with page := s.page + 1 }

/-- State transitions of `TableDetail.tsx`: identical to the list views
except that the sort select maps the empty option value to a null sort
field (`setSortBy(e.target.value || null)`). -/
def detailStep (s : DetailViewState) (e : ListViewEvent) : DetailViewState :=
  match e with
  | .commitSearch v => { s with searchQuery := v, page := 1 }
  | .clearSearch => { s with searchQuery := "", page := 1 }
  | .setSortBy v =>
    { s with sortBy := if v == "" then none else some v, page := 1 }
  | .toggleOrder =>
    { s with sortOrder := if s.sortOrder == "desc" then "asc" else "desc"
             page := 1 }
  | .scrollNextPage => { s with page := s.page + 1 }

/-- The option values of the sort-field select of `Tables.tsx`. -/
def tablesSortOptions : List String := ["created_at", "updated_at", "name"]

/-- The option values of the sort-order toggle as rendered everywhere. -/
def sortOrderOptions : List String := ["asc", "desc"]

/-- An event is deliverable by the `Tables.tsx` UI when a sort-field value
comes from the rendered select options; a DOM select can only report the
values of its options. -/
def TablesEventValid : ListViewEvent → Prop
  | .setSortBy v => v ∈ tablesSortOptions
  | _ => True

/-- States of `Tables.tsx` reachable from the initial state through UI
events. -/
inductive TablesReachable : ListViewState → Prop where
  | init : TablesReachable tablesInit
  | step (s : ListViewState) (e : ListViewEvent) :
      TablesReachable s → TablesEventValid e → TablesReachable (tablesStep s e)

/-- The query parameters of `readTablesTablesGet` built by `fetchTables`
(`Tables.tsx`): `skip = (pageNum - 1) * PAGE_SIZE`, `limit = PAGE_SIZE`,
the current search (empty mapped to undefined), sort field and order. -/
structure TablesListQuery where
  skip : Nat
  limit : Nat
  search : Option String
  sort_by : String
  sort_order : String
deriving DecidableEq, Repr

/-- `fetchTables` (`Tables.tsx`) as a function of the state and the page
number it is called with. -/
def fetchTablesQuery (s : ListViewState) (pageNum : Nat) : TablesListQuery :=
  { skip := (pageNum - 1) * PAGE_SIZE
    limit := PAGE_SIZE
    search := if s.searchQuery == "" then none else some s.searchQuery
    sort_by := s.sortBy
    sort_order := s.sortOrder }

/-- `setHasMore(response.data.length === PAGE_SIZE)` in `fetchTables`
(`Tables.tsx`). -/
def tablesHasMoreAfterFetch {α : Type} (records : List α) : Bool :=
  records.length == PAGE_SIZE

/-- `setHasMore(response.data.length === PAGE_SIZE)` in `fetchUsers`
(`Users.tsx`). -/
def usersHasMoreAfterFetch {α : Type} (records : List α) : Bool :=
  records.length == PAGE_SIZE

/-- `totalPages = Math.ceil(totalRows / pageSize)` in the `DataTable`
component. -/
def dataTableTotalPages (totalRows pageSize : Nat) : Nat :=
  (totalRows + pageSize - 1) / pageSize

/-- The Previous button of `DataTable` page mode:
`setPage((p) => Math.max(1, p - 1))`. -/
def dataTablePrevPage (p : Nat) : Nat := max 1 (p - 1)

/-- The Next button of `DataTable` page mode:
`setPage((p) => Math.min(totalPages, p + 1))`. -/
def dataTableNextPage (totalPages p : Nat) : Nat := min totalPages (p + 1)

/-- Events whose handlers reset the page to 1 (search commit, clear search,
sort-field change, sort-order toggle). -/
def pageResettingEvent : ListViewEvent → Bool
  | .scrollNextPage => false
  | _ => true

/-! ### Helper lemmas -/

theorem isIdentChar_not_whitespace (c : Char) (h : isIdentChar c = true) :
    c.isWhitespace = false := by
  by_contra hw
  rw [Bool.not_eq_false] at hw
  have hcases : c = ' ' ∨ c = '\t' ∨ c = '\r' ∨ c = '\n' := by
    simpa [Char.isWhitespace, or_assoc] using hw
  rcases hcases with h1 | h1 | h1 | h1 <;> subst h1 <;> exact absurd h (by decide)

theorem dropWhile_eq_self_of_none (p : Char → Bool) (l : List Char)
    (h : ∀ c ∈ l, p c = false) : l.dropWhile p = l := by
  cases l with
  | nil => rfl
  | cons a l => simp [List.dropWhile_cons, h a (by simp)]

theorem trimChars_eq_self (l : List Char) (h : ∀ c ∈ l, c.isWhitespace = false) :
    trimChars l = l := by
  unfold trimChars
  rw [dropWhile_eq_self_of_none _ _ h]
  rw [dropWhile_eq_self_of_none _ _ (by intro c hc; exact h c (List.mem_reverse.mp hc))]
  exact List.reverse_reverse l

theorem data_normalizeNameInput (s : String) :
    (normalizeNameInput s).data = (s.data.map Char.toLower).filter isIdentChar :=
  rfl

theorem mem_normalizeNameInput_ident (s : String) (c : Char)
    (hc : c ∈ (normalizeNameInput s).data) : isIdentChar c = true := by
  rw [data_normalizeNameInput] at hc
  exact (List.mem_filter.mp hc).2

theorem stripName_normalizeNameInput (s : String) :
    stripName (normalizeNameInput s) = normalizeNameInput s := by
  have hall : ∀ c ∈ (normalizeNameInput s).data, c.isWhitespace = false := by
    intro c hc
    exact isIdentChar_not_whitespace c (mem_normalizeNameInput_ident s c hc)
  unfold stripName
  rw [trimChars_eq_self _ hall]

theorem objKeys_jsObjInsert {α : Type} (obj : List (String × α)) (k : String)
    (v : α) :
    objKeys (jsObjInsert obj k v) =
      if k ∈ objKeys obj then objKeys obj else objKeys obj ++ [k] := by
  have hmem : (obj.any fun p => p.1 == k) = true ↔ k ∈ objKeys obj := by
    simp only [List.any_eq_true, beq_iff_eq, objKeys, List.mem_map]
  unfold jsObjInsert
  by_cases h : k ∈ objKeys obj
  · rw [if_pos h]
    rw [if_pos (hmem.mpr h)]
    unfold objKeys
    rw [List.map_map]
    apply List.map_congr_left
    intro p _
    by_cases hp : p.1 == k
    · simp only [Function.comp_apply, if_pos hp]
      exact (beq_iff_eq.mp hp).symm
    · simp only [Function.comp_apply, if_neg hp]
  · rw [if_neg h]
    rw [if_neg (fun hc => h (hmem.mp hc))]
    unfold objKeys
    simp

theorem mem_objKeys_jsObjInsert {α : Type} (obj : List (String × α))
    (k : String) (v : α) (k' : String) :
    k' ∈ objKeys (jsObjInsert obj k v) ↔ k' ∈ objKeys obj ∨ k' = k := by
  rw [objKeys_jsObjInsert]
  by_cases h : k ∈ objKeys obj
  · rw [if_pos h]
    constructor
    · exact Or.inl
    · rintro (hk | rfl)
      · exact hk
      · exact h
  · rw [if_neg h]
    simp

theorem nodup_objKeys_jsObjInsert {α : Type} (obj : List (String × α))
    (k : String) (v : α) (h : (objKeys obj).Nodup) :
    (objKeys (jsObjInsert obj k v)).Nodup := by
  rw [objKeys_jsObjInsert]
  by_cases hk : k ∈ objKeys obj
  · rw [if_pos hk]; exact h
  · rw [if_neg hk, List.nodup_append]
    refine ⟨h, List.nodup_singleton k, ?_⟩
    intro a ha hb
    rw [List.mem_singleton] at hb
    exact hk (hb ▸ ha)

theorem mem_jsObjInsert {α : Type} {obj : List (String × α)} {k : String}
    {v : α} {kv : String × α} (h : kv ∈ jsObjInsert obj k v) :
    kv ∈ obj ∨ kv = (k, v) := by
  unfold jsObjInsert at h
  by_cases hc : (obj.any fun p => p.1 == k) = true
  · rw [if_pos hc] at h
    rcases List.mem_map.mp h with ⟨p, hp, he⟩
    by_cases hpk : p.1 == k
    · rw [if_pos hpk] at he
      exact Or.inr he.symm
    · rw [if_neg hpk] at he
      exact Or.inl (he ▸ hp)
  · rw [if_neg hc] at h
    rcases List.mem_append.mp h with h1 | h1
    · exact Or.inl h1
    · exact Or.inr (List.mem_singleton.mp h1)

theorem mem_objKeys_foldl_insert {α β : Type} (c : β → Bool) (keyf : β → String)
    (valf : β → α) (l : List β) (acc : List (String × α)) (k : String) :
    k ∈ objKeys (l.foldl
      (fun a x => if c x then jsObjInsert a (keyf x) (valf x) else a) acc) ↔
      k ∈ objKeys acc ∨ ∃ x ∈ l, c x = true ∧ keyf x = k := by
  induction l generalizing acc with
  | nil => simp
  | cons x rest ih =>
    rw [List.foldl_cons, ih]
    by_cases hc : c x = true
    · rw [if_pos hc, mem_objKeys_jsObjInsert]
      simp only [List.mem_cons]
      constructor
      · rintro ((hk | rfl) | ⟨y, hy, hcy, hky⟩)
        · exact Or.inl hk
        · exact Or.inr ⟨x, Or.inl rfl, hc, rfl⟩
        · exact Or.inr ⟨y, Or.inr hy, hcy, hky⟩
      · rintro (hk | ⟨y, (rfl | hy), hcy, hky⟩)
        · exact Or.inl (Or.inl hk)
        · exact Or.inl (Or.inr hky.symm)
        · exact Or.inr ⟨y, hy, hcy, hky⟩
    · rw [if_neg hc]
      simp only [List.mem_cons]
      constructor
      · rintro (hk | ⟨y, hy, hcy, hky⟩)
        · exact Or.inl hk
        · exact Or.inr ⟨y, Or.inr hy, hcy, hky⟩
      · rintro (hk | ⟨y, (rfl | hy), hcy, hky⟩)
        · exact Or.inl hk
        · exact absurd hcy hc
        · exact Or.inr ⟨y, hy, hcy, hky⟩

theorem mem_objKeys_foldl_insert_skip {α β : Type} (c : β → Bool)
    (keyf : β → String) (valf : β → α) (l : List β)
    (acc : List (String × α)) (k : String) :
    k ∈ objKeys (l.foldl
      (fun a x => if c x then a else jsObjInsert a (keyf x) (valf x)) acc) ↔
      k ∈ objKeys acc ∨ ∃ x ∈ l, c x = false ∧ keyf x = k := by
  induction l generalizing acc with
  | nil => simp
  | cons x rest ih =>
    rw [List.foldl_cons, ih]
    by_cases hc : c x = true
    · rw [if_pos hc]
      simp only [List.mem_cons]
      constructor
      · rintro (hk | ⟨y, hy, hcy, hky⟩)
        · exact Or.inl hk
        · exact Or.inr ⟨y, Or.inr hy, hcy, hky⟩
      · rintro (hk | ⟨y, (rfl | hy), hcy, hky⟩)
        · exact Or.inl hk
        · exact absurd hc (by rw [hcy]; decide)
        · exact Or.inr ⟨y, hy, hcy, hky⟩
    · rw [if_neg hc, mem_objKeys_jsObjInsert]
      simp only [List.mem_cons]
      constructor
      · rintro ((hk | rfl) | ⟨y, hy, hcy, hky⟩)
        · exact Or.inl hk
        · exact Or.inr ⟨x, Or.inl rfl, Bool.not_eq_true _ ▸ hc, rfl⟩
        · exact Or.inr ⟨y, Or.inr hy, hcy, hky⟩
      · rintro (hk | ⟨y, (rfl | hy), hcy, hky⟩)
        · exact Or.inl (Or.inl hk)
        · exact Or.inl (Or.inr hky.symm)
        · exact Or.inr ⟨y, hy, hcy, hky⟩

theorem mem_foldl_insert {α β : Type} (c : β → Bool) (keyf : β → String)
    (valf : β → α) (l : List β) (acc : List (String × α)) {kv : String × α}
    (h : kv ∈ l.foldl
      (fun a x => if c x then jsObjInsert a (keyf x) (valf x) else a) acc) :
    kv ∈ acc ∨ ∃ x ∈ l, c x = true ∧ keyf x = kv.1 ∧ valf x = kv.2 := by
  induction l generalizing acc with
  | nil => exact Or.inl h
  | cons x rest ih =>
    rw [List.foldl_cons] at h
    rcases ih _ h with h1 | ⟨y, hy, hcy, hk, hv⟩
    · by_cases hc : c x = true
      · rw [if_pos hc] at h1
        rcases mem_jsObjInsert h1 with h2 | h2
        · exact Or.inl h2
        · subst h2
          exact Or.inr ⟨x, List.mem_cons_self x rest, hc, rfl, rfl⟩
      · rw [if_neg hc] at h1
        exact Or.inl h1
    · exact Or.inr ⟨y, List.mem_cons_of_mem x hy, hcy, hk, hv⟩

theorem buildCreateSchemaAux_go (cols : List ColumnForm)
    (acc : List (String × ColumnSchemaDef)) (hacc : (objKeys acc).Nodup)
    (schema : List (String × ColumnSchemaDef))
    (h : buildCreateSchemaAux cols acc = some schema) :
    (objKeys schema).Nodup ∧
      (∀ col ∈ cols, stripName col.name ∈ objKeys schema) ∧
      (∀ k ∈ objKeys acc, k ∈ objKeys schema) := by
  induction cols generalizing acc with
  | nil =>
    rw [buildCreateSchemaAux] at h
    cases h
    exact ⟨hacc, by simp, fun k hk => hk⟩
  | cons col rest ih =>
    rw [buildCreateSchemaAux] at h
    by_cases hc : stripName col.name == ""
    · rw [if_pos hc] at h
      cases h
    · rw [if_neg hc] at h
      have hacc2 :
          (objKeys (jsObjInsert acc (stripName col.name)
            (⟨col.type, col.nullable⟩ : ColumnSchemaDef))).Nodup :=
        nodup_objKeys_jsObjInsert _ _ _ hacc
      rcases ih _ hacc2 h with ⟨h1, h2, h3⟩
      refine ⟨h1, ?_, ?_⟩
      · intro c hcmem
        rcases List.mem_cons.mp hcmem with rfl | hcr
        · exact h3 _ ((mem_objKeys_jsObjInsert _ _ _ _).mpr (Or.inr rfl))
        · exact h2 c hcr
      · intro k hk
        exact h3 _ ((mem_objKeys_jsObjInsert _ _ _ _).mpr (Or.inl hk))

theorem buildCreateSchemaAux_isSome (cols : List ColumnForm)
    (acc : List (String × ColumnSchemaDef))
    (h : ∀ col ∈ cols, stripName col.name ≠ "") :
    ∃ schema, buildCreateSchemaAux cols acc = some schema := by
  induction cols generalizing acc with
  | nil => exact ⟨acc, rfl⟩
  | cons col rest ih =>
    rw [buildCreateSchemaAux]
    have hc : (stripName col.name == "") = false := by
      rw [beq_eq_false_iff_ne]
      exact h col (List.mem_cons_self col rest)
    rw [hc]
    simp only [Bool.false_eq_true, if_false]
    exact ih _ (fun c hcmem => h c (List.mem_cons_of_mem col hcmem))

theorem specNormalizeName_ne_id (maxLen : Nat) (raw n : String)
    (h : specNormalizeName maxLen raw = some n) : n ≠ "id" := by
  unfold specNormalizeName at h
  by_cases h1 : normalizeNameInput (stripName raw) == ""
  · rw [if_pos h1] at h; cases h
  · rw [if_neg h1] at h
    by_cases h2 : maxLen < (normalizeNameInput (stripName raw)).length
    · rw [if_pos h2] at h; cases h
    · rw [if_neg h2] at h
      by_cases h3 : normalizeNameInput (stripName raw) == "id"
      · rw [if_pos h3] at h; cases h
      · rw [if_neg h3] at h
        cases h
        exact fun he => h3 (by simp [he])

theorem mem_objKeys_stripObjectKeys_go (entries : List (String × JsValue))
    (acc : List (String × JsValue)) (k : String) :
    k ∈ objKeys (entries.foldl
      (fun acc kv => jsObjInsert acc (stripName kv.1) kv.2) acc) ↔
      k ∈ objKeys acc ∨ ∃ kv ∈ entries, stripName kv.1 = k := by
  induction entries generalizing acc with
  | nil => simp
  | cons kv rest ih =>
    rw [List.foldl_cons, ih, mem_objKeys_jsObjInsert]
    simp only [List.mem_cons]
    constructor
    · rintro ((hk | rfl) | ⟨y, hy, hky⟩)
      · exact Or.inl hk
      · exact Or.inr ⟨kv, Or.inl rfl, rfl⟩
      · exact Or.inr ⟨y, Or.inr hy, hky⟩
    · rintro (hk | ⟨y, (rfl | hy), hky⟩)
      · exact Or.inl (Or.inl hk)
      · exact Or.inl (Or.inr hky.symm)
      · exact Or.inr ⟨y, hy, hky⟩

theorem mem_objKeys_stripObjectKeys (entries : List (String × JsValue))
    (k : String) :
    k ∈ objKeys (stripObjectKeys entries) ↔
      ∃ kv ∈ entries, stripName kv.1 = k := by
  unfold stripObjectKeys
  rw [mem_objKeys_stripObjectKeys_go]
  simp [objKeys]

theorem quickAddRow_values (ks : List String) (acc : List (String × JsValue))
    (hacc : ∀ kv ∈ acc, kv.2 = JsValue.str "") :
    ∀ kv ∈ ks.foldl
      (fun acc k => jsObjInsert acc (stripName k) (JsValue.str "")) acc,
      kv.2 = JsValue.str "" := by
  induction ks generalizing acc with
  | nil => exact hacc
  | cons k rest ih =>
    rw [List.foldl_cons]
    refine ih _ ?_
    intro kv hkv
    rcases mem_jsObjInsert hkv with h1 | h1
    · exact hacc kv h1
    · rw [h1]

theorem quickAddRow_keys_mono (ks : List String)
    (acc : List (String × JsValue)) (k : String) (hk : k ∈ objKeys acc) :
    k ∈ objKeys (ks.foldl
      (fun acc kk => jsObjInsert acc (stripName kk) (JsValue.str "")) acc) := by
  induction ks generalizing acc with
  | nil => exact hk
  | cons kk rest ih =>
    rw [List.foldl_cons]
    exact ih _ ((mem_objKeys_jsObjInsert _ _ _ _).mpr (Or.inl hk))

theorem quickAddRow_keys_mem (ks : List String)
    (acc : List (String × JsValue)) (k : String) (hk : k ∈ ks) :
    stripName k ∈ objKeys (ks.foldl
      (fun acc kk => jsObjInsert acc (stripName kk) (JsValue.str "")) acc) := by
  induction ks generalizing acc with
  | nil => cases hk
  | cons kk rest ih =>
    rw [List.foldl_cons]
    rcases List.mem_cons.mp hk with rfl | hk2
    · exact quickAddRow_keys_mono rest _ _
        ((mem_objKeys_jsObjInsert _ _ _ _).mpr (Or.inr rfl))
    · exact ih _ hk2

theorem mem_objKeys_renameMap (schema : List (String × ColumnSchemaDef))
    (oldName n k : String)
    (h : k ∈ objKeys
      (schema.map (fun p => if p.1 == oldName then (n, p.2) else p))) :
    k = n ∨ k ∈ objKeys schema := by
  unfold objKeys at h
  rw [List.map_map] at h
  rcases List.mem_map.mp h with ⟨p, hp, he⟩
  by_cases hpo : p.1 == oldName
  · left
    rw [← he]
    simp only [Function.comp_apply, if_pos hpo]
  · right
    rw [← he]
    simp only [Function.comp_apply, if_neg hpo]
    exact List.mem_map.mpr ⟨p, hp, rfl⟩

theorem tablesReachable_sort (s : ListViewState) (h : TablesReachable s) :
    s.sortBy ∈ tablesSortOptions ∧ s.sortOrder ∈ sortOrderOptions := by
  induction h with
  | init => exact ⟨by simp [tablesInit, tablesSortOptions], by simp [tablesInit, sortOrderOptions]⟩
  | step s e hs hv ih =>
    cases e with
    | commitSearch v => exact ⟨ih.1, ih.2⟩
    | clearSearch => exact ⟨ih.1, ih.2⟩
    | setSortBy v => exact ⟨hv, ih.2⟩
    | toggleOrder =>
      refine ⟨ih.1, ?_⟩
      by_cases hd : s.sortOrder == "desc" <;>
        simp [tablesStep, hd, sortOrderOptions]
    | scrollNextPage => exact ⟨ih.1, ih.2⟩

/-! ### Claim theorems -/

/-- Claim C1 (corrected). As stated, the claim fails on the create-table
path: its name input stores the raw text and `handleCreateTable` only trims
it, so the create request can carry a name that is neither lower-cased nor
stripped. Amended: for names entered through the add-column, edit-column
and edit-table name inputs — whose change handlers lower-case the text and
remove characters outside `[a-z0-9_]` — the submitted name is exactly that
normalized input, and an empty normalized name aborts the operation with no
request; the create-table form submits its name merely trimmed of
surrounding whitespace, still rejecting a name that trims to empty. -/
theorem claim_C1_amended :
    (∀ raw : String,
      addColumnSubmitFromInput raw =
        if normalizeNameInput raw = "" then none
        else some (normalizeNameInput raw)) ∧
    (∀ raw : String,
      editTableSubmitFromInput raw =
        if normalizeNameInput raw = "" then none
        else some (normalizeNameInput raw)) ∧
    (∀ (originalName rawNewName ctype : String) (nullable : Bool),
      (handleUpdateColumnRequest originalName rawNewName ctype nullable = none ↔
        normalizeNameInput rawNewName = "") ∧
      (∀ body,
        handleUpdateColumnRequest originalName rawNewName ctype nullable =
          some body →
        body.new_name = none ∨
          body.new_name = some (normalizeNameInput rawNewName))) ∧
    (∀ form : CreateTableForm,
      (stripName form.name = "" → handleCreateTableRequests form = []) ∧
      (∀ r ∈ handleCreateTableRequests form,
        r.name = stripName form.name ∧ r.name ≠ "")) := by
  refine ⟨?_, ?_, ?_, ?_⟩
  · intro raw
    unfold addColumnSubmitFromInput addColumnSubmittedName
    rw [stripName_normalizeNameInput]
    by_cases h : normalizeNameInput raw = "" <;> simp [h]
  · intro raw
    unfold editTableSubmitFromInput
    rw [stripName_normalizeNameInput]
    by_cases h : normalizeNameInput raw = "" <;> simp [h]
  · intro originalName rawNewName ctype nullable
    unfold handleUpdateColumnRequest
    rw [stripName_normalizeNameInput]
    by_cases h : normalizeNameInput rawNewName = ""
    · simp [h]
    · constructor
      · simp [h]
      · intro body hbody
        simp only [beq_iff_eq, h, if_neg] at hbody
        rw [if_neg (by simp [h])] at hbody
        cases hbody
        by_cases hne : normalizeNameInput rawNewName != originalName
        · right; simp [hne]
        · left; simp at hne; simp [hne]
  · intro form
    unfold handleCreateTableRequests
    constructor
    · intro h
      rw [if_pos (by simpa using h)]
    · intro r hr
      by_cases h : stripName form.name == ""
      · rw [if_pos h] at hr
        simp at hr
      · rw [if_neg h] at hr
        cases hb : buildCreateSchema form.columns with
        | none => rw [hb] at hr; simp at hr
        | some schema =>
          rw [hb] at hr
          rcases List.mem_singleton.mp hr with rfl
          exact ⟨rfl, by simpa using h⟩

/-- Claim C1 counterexample: the create-table form with name `My Table`
(and the default uuid `id` column) issues a create request whose submitted
name is the raw `My Table`, not the lower-cased stripped `mytable` the claim
requires. -/
theorem claim_C1_counterexample :
    handleCreateTableRequests
        { name := "My Table", description := "", public := false,
          columns := [{ name := "id", type := "uuid", nullable := false }] } =
      [{ name := "My Table", description := none, public := false,
         schema := [("id", { type := "uuid", nullable := false })] }] ∧
    normalizeNameInput "My Table" = "mytable" ∧
    ("My Table" : String) ≠ "mytable" := by
  refine ⟨by decide, by decide, by decide⟩

/-- Claim C1 witness: the amended theorem evaluated at a concrete add-column
input and at a concrete empty create-table name. -/
theorem claim_C1_witness :
    addColumnSubmitFromInput "My Column!" = some "mycolumn" ∧
    handleCreateTableRequests
        { name := "   ", description := "", public := false, columns := [] } = [] := by
  constructor
  · exact (claim_C1_amended.1 "My Column!").trans (by decide)
  · exact (claim_C1_amended.2.2.2
      { name := "   ", description := "", public := false, columns := [] }).1
      (by decide)

/-- Claim C4 (corrected). As stated, the claim fails: neither the change
handlers nor the submit handlers require a leading lowercase letter, so a
stripped name beginning with a digit or underscore is submitted rather than
rejected. Amended: every name submitted from the add-column and edit-table
name inputs is a nonempty string over `[a-z0-9_]`, with no constraint on
the first character. -/
theorem claim_C4_amended :
    ∀ raw n : String,
      addColumnSubmitFromInput raw = some n ∨
        editTableSubmitFromInput raw = some n →
      n ≠ "" ∧ ∀ c ∈ n.data, isIdentChar c = true := by
  intro raw n h
  have hn : n = normalizeNameInput raw ∧ normalizeNameInput raw ≠ "" := by
    rcases h with h | h
    · unfold addColumnSubmitFromInput addColumnSubmittedName at h
      rw [stripName_normalizeNameInput] at h
      by_cases hc : normalizeNameInput raw == ""
      · rw [if_pos hc] at h; cases h
      · rw [if_neg hc] at h
        cases h
        exact ⟨rfl, by simpa using hc⟩
    · unfold editTableSubmitFromInput at h
      rw [stripName_normalizeNameInput] at h
      by_cases hc : normalizeNameInput raw == ""
      · rw [if_pos hc] at h; cases h
      · rw [if_neg hc] at h
        cases h
        exact ⟨rfl, by simpa using hc⟩
  obtain ⟨h1, hne⟩ := hn
  subst h1
  exact ⟨hne, fun c hc => mem_normalizeNameInput_ident raw c hc⟩

/-- Claim C4 counterexample: the input `1a` survives validation and is
submitted as the column name `1a`, which does not match the pattern that
names start with a lowercase letter. -/
theorem claim_C4_counterexample :
    addColumnSubmitFromInput "1a" = some "1a" ∧
    matchesSpecNamePattern "1a" = false := by
  refine ⟨by decide, by decide⟩

/-- Claim C4 witness: the amended theorem evaluated at the concrete
input `1a`. -/
theorem claim_C4_witness :
    ("1a" : String) ≠ "" ∧ ∀ c ∈ ("1a" : String).data, isIdentChar c = true :=
  claim_C4_amended "1a" "1a" (Or.inl (by decide))

/-- Claim C5 (confirmed, spec-modelled backend): the frontend add-column
and edit-column handlers submit the cleaned names without a reserved-word
check, and the spec-modelled backend Identifier Validator rejects the
reserved name `id`, so neither the add-column flow nor the rename flow can
ever produce a schema containing a column named `id`. -/
theorem claim_C5 :
    ∀ (maxLen : Nat) (schema : List (String × ColumnSchemaDef)) (raw : String)
      (cdef : ColumnSchemaDef) (originalName ctype : String) (nullable : Bool),
      "id" ∉ objKeys schema →
        "id" ∉ objKeys (addColumnFlow maxLen schema raw cdef) ∧
        "id" ∉ objKeys
          (renameColumnFlow maxLen schema originalName raw ctype nullable) := by
  intro maxLen schema raw cdef originalName ctype nullable hid
  constructor
  · unfold addColumnFlow
    split
    · exact hid
    · rename_i nm hsub
      split
      · exact hid
      · rename_i schema2 hadd
        unfold specAddColumn at hadd
        split at hadd
        · cases hadd
        · rename_i m hval
          split at hadd
          · cases hadd
          · cases hadd
            intro hmem
            rcases (mem_objKeys_jsObjInsert _ _ _ _).mp hmem with h1 | h1
            · exact hid h1
            · exact specNormalizeName_ne_id _ _ _ hval h1.symm
  · unfold renameColumnFlow
    split
    · exact hid
    · rename_i body hreq
      split
      · exact hid
      · rename_i n hnn
        split
        · exact hid
        · rename_i schema2 hren
          unfold specRenameColumn at hren
          split at hren
          · cases hren
          · rename_i m hval
            split at hren
            · cases hren
            · cases hren
              intro hmem
              rcases mem_objKeys_renameMap schema originalName m "id" hmem with h1 | h1
              · exact specNormalizeName_ne_id _ _ _ hval h1.symm
              · exact hid h1

/-- Claim C5 witness: the flow theorem evaluated at the raw input `id` on
the empty schema; the spec-modelled validator rejects the reserved name and
the schema stays without an `id` column. -/
theorem claim_C5_witness :
    "id" ∉ objKeys (addColumnFlow 63 [] "id" ⟨"text", true⟩) ∧
    "id" ∉ objKeys (renameColumnFlow 63 [] "a" "id" "text" true) :=
  claim_C5 63 [] "id" ⟨"text", true⟩ "a" "text" true (by decide)

/-- Claim C2 (corrected). The update half of the claim holds:
`handleUpdateRow` removes the key `id` before sending the request. The
insert half fails: the quick-view add-row handler of `Tables.tsx` submits
every schema key — including `id` — with an empty-string value. Amended:
(a) an update body never contains the key `id`, provided the remaining data
keys are already-trimmed column names; (b) the table-detail add-row form
contains no `id` field when every column named `id` has a uuid-containing
type; (c) the table-detail insert body contains no `id` key when every `id`
entry of the form data is empty, null or undefined; (d) the quick-view
add-row body carries every trimmed schema key, `id` included, with an
empty-string value. -/
theorem claim_C2_amended :
    (∀ data : List (String × JsValue),
      (∀ kv ∈ data, stripName kv.1 = kv.1) →
      "id" ∉ objKeys (handleUpdateRowBody data)) ∧
    (∀ columns : List ColumnInfo,
      (∀ col ∈ columns, col.name = "id" →
        strContains (jsToLower col.type) "uuid" = true) →
      "id" ∉ objKeys (openAddRowModalInit columns)) ∧
    (∀ entries : List (String × JsValue),
      (∀ kv ∈ entries, stripName kv.1 = kv.1) →
      (∀ kv ∈ entries, kv.1 = "id" → keepRowValue kv.2 = false) →
      "id" ∉ objKeys (handleAddRowClean entries)) ∧
    (∀ (schemaKeys : List String) (k : String), k ∈ schemaKeys →
      ∃ kv ∈ tablesQuickAddRowBody schemaKeys,
        kv.1 = stripName k ∧ kv.2 = JsValue.str "") := by
  refine ⟨?_, ?_, ?_, ?_⟩
  · intro data htrim hmem
    unfold handleUpdateRowBody at hmem
    rcases (mem_objKeys_stripObjectKeys _ _).mp hmem with ⟨kv, hkv, hk⟩
    rcases List.mem_filter.mp hkv with ⟨hkvd, hne⟩
    rw [htrim kv hkvd] at hk
    exact bne_iff_ne.mp hne hk
  · intro columns huuid hmem
    unfold openAddRowModalInit at hmem
    rw [mem_objKeys_foldl_insert_skip] at hmem
    rcases hmem with hk | ⟨col, hcol, hcfalse, hname⟩
    · simp [objKeys] at hk
    · have huu := huuid col hcol hname
      rw [Bool.and_eq_false_iff] at hcfalse
      rcases hcfalse with h1 | h1
      · rw [hname] at h1
        exact absurd h1 (by decide)
      · exact absurd huu (by simp [h1])
  · intro entries htrim hempty hmem
    unfold handleAddRowClean at hmem
    rw [mem_objKeys_foldl_insert] at hmem
    rcases hmem with hk | ⟨kv, hkv, hc, hk⟩
    · simp [objKeys] at hk
    · rw [Bool.and_eq_true] at hc
      rw [htrim kv hkv] at hk
      have := hempty kv hkv hk
      rw [this] at hc
      exact absurd hc.1 (by decide)
  · intro schemaKeys k hk
    have hkey := quickAddRow_keys_mem schemaKeys [] k hk
    rcases List.mem_map.mp hkey with ⟨kv, hkv, hfst⟩
    exact ⟨kv, hkv, hfst, quickAddRow_values schemaKeys [] (by simp) kv hkv⟩

/-- Claim C2 counterexample: for a table whose schema has the keys `id` and
`title`, the quick-view add-row request body contains the key `id` (with an
empty-string value), so an insert does directly write the identity
column. -/
theorem claim_C2_counterexample :
    tablesQuickAddRowBody ["id", "title"] =
      [("id", JsValue.str ""), ("title", JsValue.str "")] ∧
    "id" ∈ objKeys (tablesQuickAddRowBody ["id", "title"]) := by
  refine ⟨by decide, by decide⟩

/-- Claim C2 witness: the amended theorem evaluated at a concrete update
body and a concrete uuid-id column list. -/
theorem claim_C2_witness :
    "id" ∉ objKeys (handleUpdateRowBody
      [("id", JsValue.str "7"), ("title", JsValue.str "x")]) ∧
    "id" ∉ objKeys (openAddRowModalInit
      [{ name := "id", type := "uuid", nullable := false },
       { name := "title", type := "text", nullable := true }]) :=
  ⟨claim_C2_amended.1 _ (by decide), claim_C2_amended.2.1 _ (by decide)⟩

/-- Claim C3 (corrected). As stated, the claim fails: `handleCreateTable`
performs no uniqueness validation at all — the schema is built as a
JavaScript object, so two column entries with equal trimmed names silently
collapse (the later definition overwrites the earlier one) and the create
call is still issued instead of the schema being rejected; names differing
only in case are submitted as distinct keys. Amended: the create operation
is invoked at most once per submission — exactly once when the table name
and every column name trim to nonempty — with the whole collapsed column
set: the submitted schema has no duplicate keys and contains the trimmed
name of every entered column. -/
theorem claim_C3_amended :
    ∀ form : CreateTableForm,
      (handleCreateTableRequests form).length ≤ 1 ∧
      (∀ r ∈ handleCreateTableRequests form,
        (objKeys r.schema).Nodup ∧
          ∀ col ∈ form.columns, stripName col.name ∈ objKeys r.schema) ∧
      (stripName form.name ≠ "" →
        (∀ col ∈ form.columns, stripName col.name ≠ "") →
        (handleCreateTableRequests form).length = 1) := by
  intro form
  refine ⟨?_, ?_, ?_⟩
  · unfold handleCreateTableRequests
    by_cases h : stripName form.name == ""
    · rw [if_pos h]; simp
    · rw [if_neg h]
      cases hb : buildCreateSchema form.columns <;> simp
  · intro r hr
    unfold handleCreateTableRequests at hr
    by_cases h : stripName form.name == ""
    · rw [if_pos h] at hr; simp at hr
    · rw [if_neg h] at hr
      cases hb : buildCreateSchema form.columns with
      | none => rw [hb] at hr; simp at hr
      | some schema =>
        rw [hb] at hr
        rcases List.mem_singleton.mp hr with rfl
        unfold buildCreateSchema at hb
        have hg := buildCreateSchemaAux_go form.columns [] (by simp [objKeys])
          schema hb
        exact ⟨hg.1, hg.2.1⟩
  · intro hname hcols
    unfold handleCreateTableRequests
    rw [if_neg (by simpa using hname)]
    obtain ⟨schema, hs⟩ := buildCreateSchemaAux_isSome form.columns [] hcols
    unfold buildCreateSchema
    rw [hs]
    rfl

/-- Claim C3 counterexample: a create-table form with two columns both
named `a` is not rejected — a single create request is issued whose schema
collapsed the duplicate to one key holding the later definition. -/
theorem claim_C3_counterexample :
    handleCreateTableRequests
        { name := "t", description := "", public := false,
          columns := [{ name := "a", type := "text", nullable := true },
                      { name := "a", type := "integer", nullable := true }] } =
      [{ name := "t", description := none, public := false,
         schema := [("a", { type := "integer", nullable := true })] }] ∧
    handleCreateTableRequests
        { name := "t", description := "", public := false,
          columns := [{ name := "a", type := "text", nullable := true },
                      { name := "a", type := "integer", nullable := true }] } ≠
      [] := by
  refine ⟨by decide, by decide⟩

/-- Claim C3 witness: the amended theorem evaluated at a concrete one-column
form, with its nonemptiness hypotheses discharged by computation. -/
theorem claim_C3_witness :
    (handleCreateTableRequests
      { name := "t", description := "", public := false,
        columns := [{ name := "a", type := "text", nullable := true }] }).length
      = 1 :=
  (claim_C3_amended _).2.2 (by decide) (by decide)

/-- Claim C6 (confirmed): in every state of the tables-list view reachable
from the initial state through UI events, the list request carries a
`sort_by` among exactly `created_at`, `updated_at`, `name` and a
`sort_order` among exactly `asc`, `desc`: the sort select only delivers its
three option values, the order toggle only flips between `desc` and `asc`,
and no other event touches either field. -/
theorem claim_C6 :
    ∀ s : ListViewState, TablesReachable s →
      ∀ pageNum : Nat,
        (fetchTablesQuery s pageNum).sort_by ∈ tablesSortOptions ∧
        (fetchTablesQuery s pageNum).sort_order ∈ sortOrderOptions := by
  intro s hs pageNum
  exact tablesReachable_sort s hs

/-- Claim C6 witness: the invariant evaluated at the initial state. -/
theorem claim_C6_witness :
    (fetchTablesQuery tablesInit 1).sort_by ∈ tablesSortOptions ∧
    (fetchTablesQuery tablesInit 1).sort_order ∈ sortOrderOptions :=
  claim_C6 tablesInit TablesReachable.init 1

/-- Claim C7 (confirmed): the list request for page `n` carries
`skip = (n - 1) * 50` and `limit = 50`; the page-mode navigation buttons
keep the page within `1 .. ceil(N / 50)`; and for a fixed collection of `N`
records the offset windows of pages `1 .. ceil(N / 50)` are pairwise
disjoint and cover every position below `N` exactly once. -/
theorem claim_C7 :
    (∀ (s : ListViewState) (pageNum : Nat),
      (fetchTablesQuery s pageNum).skip = (pageNum - 1) * PAGE_SIZE ∧
      (fetchTablesQuery s pageNum).limit = PAGE_SIZE) ∧
    (∀ totalRows p : Nat, 1 ≤ p → p ≤ dataTableTotalPages totalRows PAGE_SIZE →
      (1 ≤ dataTablePrevPage p ∧
        dataTablePrevPage p ≤ dataTableTotalPages totalRows PAGE_SIZE) ∧
      (1 ≤ dataTableNextPage (dataTableTotalPages totalRows PAGE_SIZE) p ∧
        dataTableNextPage (dataTableTotalPages totalRows PAGE_SIZE) p ≤
          dataTableTotalPages totalRows PAGE_SIZE)) ∧
    (∀ N k : Nat, k < N →
      ∃! n : Nat, (1 ≤ n ∧ n ≤ dataTableTotalPages N PAGE_SIZE) ∧
        (n - 1) * PAGE_SIZE ≤ k ∧ k < n * PAGE_SIZE) ∧
    (∀ m n k : Nat, 1 ≤ m → 1 ≤ n → m ≠ n →
      ¬((m - 1) * PAGE_SIZE ≤ k ∧ k < m * PAGE_SIZE ∧
        (n - 1) * PAGE_SIZE ≤ k ∧ k < n * PAGE_SIZE)) := by
  refine ⟨fun s pageNum => ⟨rfl, rfl⟩, ?_, ?_, ?_⟩
  · intro totalRows p h1 h2
    unfold dataTablePrevPage dataTableNextPage
    omega
  · intro N k hk
    have ha : k / 50 * 50 ≤ k := Nat.div_mul_le_self k 50
    have hb : k < k / 50 * 50 + 50 := by
      have h1 := Nat.div_add_mod k 50
      have h2 : k % 50 < 50 := Nat.mod_lt _ (by norm_num)
      omega
    have hc : (N + 49) / 50 * 50 ≤ N + 49 := Nat.div_mul_le_self _ 50
    have hd : N + 49 < (N + 49) / 50 * 50 + 50 := by
      have h1 := Nat.div_add_mod (N + 49) 50
      have h2 : (N + 49) % 50 < 50 := Nat.mod_lt _ (by norm_num)
      omega
    have hT : dataTableTotalPages N PAGE_SIZE = (N + 49) / 50 := by
      unfold dataTableTotalPages PAGE_SIZE
      congr 1
    refine ⟨k / 50 + 1, ⟨⟨?_, ?_⟩, ?_, ?_⟩, ?_⟩
    · omega
    · rw [hT]; omega
    · simp only [PAGE_SIZE]; omega
    · simp only [PAGE_SIZE]; omega
    · rintro m ⟨⟨hm1, hm2⟩, hm3, hm4⟩
      rw [hT] at hm2
      simp only [PAGE_SIZE] at hm3 hm4
      omega
  · rintro m n k hm hn hne ⟨h1, h2, h3, h4⟩
    simp only [PAGE_SIZE] at h1 h2 h3 h4
    omega

/-- Claim C7 witness: the skip formula at page 3 and the unique covering
page for position 57 in a 120-record collection. -/
theorem claim_C7_witness :
    (fetchTablesQuery tablesInit 3).skip = 100 ∧
    (∃! n : Nat, (1 ≤ n ∧ n ≤ dataTableTotalPages 120 PAGE_SIZE) ∧
      (n - 1) * PAGE_SIZE ≤ 57 ∧ 57 < n * PAGE_SIZE) := by
  constructor
  · exact ((claim_C7.1 tablesInit 3).1).trans (by decide)
  · exact claim_C7.2.2.1 120 57 (by norm_num)

/-- Claim C8 (confirmed): after a successful list fetch in the tables and
users views the `hasMore` flag is set exactly when the number of returned
records equals the page size 50; consequently a full final page — for
example when the total count is a multiple of 50 — still sets `hasMore` to
true even though no further records exist. -/
theorem claim_C8 :
    (∀ {α : Type} (records : List α),
      tablesHasMoreAfterFetch records = true ↔ records.length = PAGE_SIZE) ∧
    (∀ {α : Type} (records : List α),
      usersHasMoreAfterFetch records = true ↔ records.length = PAGE_SIZE) ∧
    (∀ {α : Type} (records : List α) (N pageNum : Nat), 1 ≤ pageNum →
      records.length = min PAGE_SIZE (N - (pageNum - 1) * PAGE_SIZE) →
      pageNum * PAGE_SIZE = N →
      tablesHasMoreAfterFetch records = true) := by
  refine ⟨?_, ?_, ?_⟩
  · intro α records
    simp [tablesHasMoreAfterFetch]
  · intro α records
    simp [usersHasMoreAfterFetch]
  · intro α records N pageNum h1 h2 h3
    simp only [tablesHasMoreAfterFetch, beq_iff_eq]
    rw [h2]
    simp only [PAGE_SIZE] at h3 ⊢
    omega

/-- Claim C8 witness: a returned page of exactly 50 records sets `hasMore`
in both views. -/
theorem claim_C8_witness :
    tablesHasMoreAfterFetch (List.range PAGE_SIZE) = true ∧
    usersHasMoreAfterFetch (List.range PAGE_SIZE) = true :=
  ⟨(claim_C8.1 (List.range PAGE_SIZE)).mpr (by simp),
   (claim_C8.2.1 (List.range PAGE_SIZE)).mpr (by simp)⟩

/-- Claim C9 (confirmed): every search commit, search clear, sort-field
change and sort-order toggle resets the page to 1 in the tables, users and
table-detail views, so a request after a filter or ordering change never
reuses the previous page offset. -/
theorem claim_C9 :
    ∀ e : ListViewEvent, pageResettingEvent e = true →
      ∀ (sa sb : ListViewState) (sc : DetailViewState),
        (tablesStep sa e).page = 1 ∧ (usersStep sb e).page = 1 ∧
          (detailStep sc e).page = 1 := by
  intro e he sa sb sc
  cases e with
  | commitSearch v => exact ⟨rfl, rfl, rfl⟩
  | clearSearch => exact ⟨rfl, rfl, rfl⟩
  | setSortBy v => exact ⟨rfl, rfl, rfl⟩
  | toggleOrder => exact ⟨rfl, rfl, rfl⟩
  | scrollNextPage => exact Bool.noConfusion he

/-- Claim C9 witness: clearing the search from page 7 lands every view on
page 1. -/
theorem claim_C9_witness :
    (tablesStep { tablesInit with page := 7 } ListViewEvent.clearSearch).page = 1 ∧
    (usersStep { usersInit with page := 7 } ListViewEvent.clearSearch).page = 1 ∧
    (detailStep { page := 7, searchQuery := "", sortBy := none,
                  sortOrder := "desc" } ListViewEvent.clearSearch).page = 1 :=
  claim_C9 ListViewEvent.clearSearch (by decide) _ _ _

/-- Claim C10 (confirmed): the table-detail add-row request body contains
exactly those form entries whose value is not the empty string, null or
undefined and whose trimmed key is nonempty, stored under the trimmed key;
an empty input is therefore transmitted as an absent column. -/
theorem claim_C10 :
    ∀ entries : List (String × JsValue),
      (∀ k : String, k ∈ objKeys (handleAddRowClean entries) ↔
        ∃ kv ∈ entries,
          stripName kv.1 = k ∧ k ≠ "" ∧ keepRowValue kv.2 = true) ∧
      (∀ kv2 ∈ handleAddRowClean entries,
        ∃ kv ∈ entries, stripName kv.1 = kv2.1 ∧ kv.2 = kv2.2 ∧
          keepRowValue kv.2 = true ∧ kv2.1 ≠ "") ∧
      (keepRowValue (JsValue.str "") = false ∧
        keepRowValue JsValue.nul = false ∧
        keepRowValue JsValue.undef = false) := by
  intro entries
  refine ⟨?_, ?_, by decide, by decide, by decide⟩
  · intro k
    unfold handleAddRowClean
    rw [mem_objKeys_foldl_insert]
    constructor
    · rintro (hk | ⟨kv, hkv, hc, hk⟩)
      · simp [objKeys] at hk
      · rw [Bool.and_eq_true] at hc
        refine ⟨kv, hkv, hk, ?_, hc.1⟩
        rw [← hk]
        exact bne_iff_ne.mp hc.2
    · rintro ⟨kv, hkv, hk, hne, hkeep⟩
      right
      refine ⟨kv, hkv, ?_, hk⟩
      rw [Bool.and_eq_true]
      refine ⟨hkeep, ?_⟩
      rw [hk]
      exact bne_iff_ne.mpr hne
  · intro kv2 hkv2
    unfold handleAddRowClean at hkv2
    rcases mem_foldl_insert _ _ _ _ _ hkv2 with h1 | ⟨kv, hkv, hc, hk, hv⟩
    · simp at h1
    · rw [Bool.and_eq_true] at hc
      refine ⟨kv, hkv, hk, hv, hc.1, ?_⟩
      rw [← hk]
      exact bne_iff_ne.mp hc.2

/-- Claim C10 witness: an empty-string entry is dropped and a nonempty
entry survives under its trimmed key. -/
theorem claim_C10_witness :
    "b" ∈ objKeys (handleAddRowClean
      [("a", JsValue.str ""), (" b ", JsValue.str "v")]) ∧
    ¬"a" ∈ objKeys (handleAddRowClean
      [("a", JsValue.str ""), (" b ", JsValue.str "v")]) := by
  constructor
  · exact ((claim_C10 _).1 "b").mpr
      ⟨(" b ", JsValue.str "v"), by decide, by decide, by decide, by decide⟩
  · intro h
    rcases ((claim_C10 _).1 "a").mp h with ⟨kv, hkv, hk, hne, hkeep⟩
    rcases List.mem_cons.mp hkv with rfl | hkv2
    · exact absurd hkeep (by decide)
    · rcases List.mem_cons.mp hkv2 with rfl | hkv3
      · exact absurd hk (by decide)
      · simp at hkv3

end SelfDB
